import Mathlib

/-!
Shallow embedding of `src/word_count.py` (wordle-word-match).

The program validates CLI constraints (letters, positions, substrings),
fetches a word list, and counts the words matching all constraints.
Python exceptions (the validator's `ValueError`s, and the `IndexError`
that `word[p]` can raise inside `match_letters`) are modelled with
`Except`/`Option`: a `none` result of `match_letters` is a raised
`IndexError`, an `Except.error` of `validate` is a raised `ValueError`.
-/

/-- Python string indexing `w[p]` for `p : Int`: in-range non-negative
indices return the one-character string at that index, negative indices
wrap from the end, anything else raises `IndexError` (`none`). -/
def pyIndexStr (w : String) (p : Int) : Option String :=
  let n : Int := (w.length : Int)
  if 0 ≤ p ∧ p < n then
    (w.data.get? p.toNat).map (fun c => String.mk [c])
  else if -n ≤ p ∧ p < 0 then
    (w.data.get? (p + n).toNat).map (fun c => String.mk [c])
  else none

/-- Python `sub in w` for strings: contiguous-substring containment. -/
def pyIn (sub w : String) : Bool :=
  decide (sub.data <:+: w.data)

/-- The generator `all(word[p] == l for l, p in zip(letters, positions))`,
run on the already-zipped pair list.  Python's `all` is lazy and
short-circuits on the first `False`, so a pair that would raise
`IndexError` is only reached if every earlier pair matched. -/
def match_pairs (w : String) : List (String × Int) → Option Bool
  | [] => some true
  | (l, p) :: rest =>
    match pyIndexStr w p with
    | none => none
    | some c => if c = l then match_pairs w rest else some false

/-- `match_letters` from `word_count.py`: checks word for matching
letters, and positions if provided. -/
def match_letters (word : String) (letters : Option (List String))
    (positions : Option (List Int)) : Option Bool :=
  match letters with
  | none => some true
  | some L =>
    match positions with
    | some P => match_pairs word (L.zip P)
    | none => some (L.all (fun l => pyIn l word))

/-- `match_substrings` from `word_count.py`. -/
def match_substrings (word : String) (substrings : Option (List String)) : Bool :=
  match substrings with
  | none => true
  | some S => S.all (fun s => pyIn s word)

/-- The per-word filter condition of `main`:
`match_letters(word, letters, positions) and match_substrings(word, substrings)`.
Python's `and` short-circuits, but `match_substrings` is total, so the
conjunction only propagates the possible `IndexError` of `match_letters`. -/
def word_matches (letters : Option (List String)) (positions : Option (List Int))
    (substrings : Option (List String)) (word : String) : Option Bool :=
  match match_letters word letters positions with
  | none => none
  | some b => some (b && match_substrings word substrings)

/-- The list comprehension `valid_words` of `main`: filters the word list,
propagating a raised `IndexError` out of the whole comprehension. -/
def valid_words (letters : Option (List String)) (positions : Option (List Int))
    (substrings : Option (List String)) : List String → Option (List String)
  | [] => some []
  | w :: ws =>
    match word_matches letters positions substrings w with
    | none => none
    | some b =>
      match valid_words letters positions substrings ws with
      | none => none
      | some rest => some (if b then w :: rest else rest)

/-- `matching_word_count = len(valid_words)` of `main`. -/
def matching_word_count (letters : Option (List String)) (positions : Option (List Int))
    (substrings : Option (List String)) (words : List String) : Option Nat :=
  (valid_words letters positions substrings words).map List.length

/-- The letters check of `cli`: rejects a letters token of length > 1. -/
def checkLetters : Option (List String) → Except String Unit
  | none => Except.ok ()
  | some L =>
    if L.any (fun l => l.length > 1) then
      Except.error "Each letter must be a single character. Letters must be separated by spaces"
    else Except.ok ()

/-- The letters/positions consistency checks of `cli` (the
`if ... and ... / elif` block). -/
def checkLettersPositions : Option (List String) → Option (List Int) → Except String Unit
  | some L, some P =>
    if L.length ≠ P.length then
      Except.error "A position must be provided for each letter"
    else if P.dedup.length ≠ P.length then
      Except.error "The same position cannot be provided twice"
    else if P.any (fun p => decide (p < 0 ∨ 4 < p)) then
      Except.error "Valid positions are 0, 1, 2, 3, or 4"
    else Except.ok ()
  | none, some _ =>
    Except.error "A list of letters is required when using the --positions argument"
  | _, none => Except.ok ()

/-- The substrings check of `cli`.  Note the source compares
`len(args.substrings)` — the number of substrings — against 5, not the
length of each substring. -/
def checkSubstrings : Option (List String) → Except String Unit
  | none => Except.ok ()
  | some S =>
    if S.length > 5 then
      Except.error "A substring annot be longer than a valid wordle guess"
    else Except.ok ()

/-- The validation performed by `cli` after argument parsing, in source
order: letters tokens, then letters/positions consistency, then
substrings. -/
def validate (letters : Option (List String)) (positions : Option (List Int))
    (substrings : Option (List String)) : Except String Unit := do
  checkLetters letters
  checkLettersPositions letters positions
  checkSubstrings substrings

/-! ## Helper lemmas -/

lemma singleton_infix_iff (c : Char) (l : List Char) : [c] <:+: l ↔ c ∈ l := by
  constructor
  · intro h
    exact h.mem (by simp)
  · intro h
    obtain ⟨s, t, rfl⟩ := List.append_of_mem h
    exact ⟨s, t, by simp⟩

lemma word_matches_eq_some_true_iff (letters : Option (List String))
    (positions : Option (List Int)) (substrings : Option (List String)) (w : String) :
    word_matches letters positions substrings w = some true ↔
      match_letters w letters positions = some true ∧
        match_substrings w substrings = true := by
  unfold word_matches
  cases h : match_letters w letters positions with
  | none => simp
  | some b => cases b <;> simp

lemma word_matches_none_iff (letters : Option (List String))
    (positions : Option (List Int)) (substrings : Option (List String)) (w : String) :
    word_matches letters positions substrings w = none ↔
      match_letters w letters positions = none := by
  unfold word_matches
  cases match_letters w letters positions <;> simp

lemma valid_words_of_none (letters : Option (List String)) (positions : Option (List Int))
    (substrings : Option (List String)) (ws : List String) (w : String)
    (hw : w ∈ ws) (h : word_matches letters positions substrings w = none) :
    valid_words letters positions substrings ws = none := by
  induction ws with
  | nil => cases hw
  | cons a t ih =>
    rcases List.mem_cons.mp hw with rfl | hmem
    · simp [valid_words, h]
    · unfold valid_words
      cases word_matches letters positions substrings a with
      | none => rfl
      | some b => rw [ih hmem]

lemma valid_words_all_some (letters : Option (List String)) (positions : Option (List Int))
    (substrings : Option (List String)) (ws : List String)
    (h : ∀ w ∈ ws, (word_matches letters positions substrings w).isSome) :
    valid_words letters positions substrings ws =
      some (ws.filter (fun w => word_matches letters positions substrings w == some true)) := by
  induction ws with
  | nil => rfl
  | cons a t ih =>
    obtain ⟨b, hb⟩ := Option.isSome_iff_exists.mp (h a (List.mem_cons_self a t))
    have ht := ih (fun w hw => h w (List.mem_cons_of_mem a hw))
    unfold valid_words
    rw [hb, ht, List.filter_cons]
    cases b <;> simp [hb]

lemma validate_eq (letters : Option (List String)) (positions : Option (List Int))
    (substrings : Option (List String)) :
    validate letters positions substrings =
      match checkLetters letters with
      | Except.error e => Except.error e
      | Except.ok _ =>
        match checkLettersPositions letters positions with
        | Except.error e => Except.error e
        | Except.ok _ => checkSubstrings substrings := by
  unfold validate
  cases checkLetters letters <;> cases checkLettersPositions letters positions <;> rfl

/-! ## Claims -/

/-- C1: the spec says any substring longer than 5 characters is rejected
with `InvalidArgument`, and in particular `substrings=["abcdef"]` is
rejected.  The code instead compares the **number of substrings** against
5 (`len(args.substrings) > 5`), so the single 6-character substring
`"abcdef"` passes validation, contradicting the source's own error
message about a substring being longer than a valid wordle guess. -/
theorem validate_accepts_six_char_substring :
    validate none none (some ["abcdef"]) = Except.ok () ∧
      ("abcdef" : String).length = 6 :=
  ⟨rfl, rfl⟩

/-- C5: `match_substrings` is trivially true when no substrings constraint
is given, and otherwise true iff every element of the list is a contiguous
substring (infix) of the word. -/
theorem match_substrings_spec (w : String) (S : List String) :
    match_substrings w none = true ∧
      (match_substrings w (some S) = true ↔ ∀ s ∈ S, s.data <:+: w.data) := by
  refine ⟨rfl, ?_⟩
  simp [match_substrings, pyIn, List.all_eq_true]

/-- C6: with no constraints at all (`letters=None, positions=None,
substrings=None`), the reported match count equals the length of the word
list. -/
theorem count_all_none_eq_length (ws : List String) :
    matching_word_count none none none ws = some ws.length := by
  have h : valid_words none none none ws = some ws := by
    induction ws with
    | nil => rfl
    | cons w t ih => simp [valid_words, word_matches, match_letters, match_substrings, ih]
  simp [matching_word_count, h]

/-- C10: empty constraint lists (as opposed to `None`) are vacuously
satisfied: `match_letters` with an empty letters list returns true for any
positions value, `match_substrings` with an empty substrings list returns
true, and filtering with both empty lists keeps every word. -/
theorem empty_constraint_lists_vacuous (w : String) (P : Option (List Int)) (ws : List String) :
    match_letters w (some []) P = some true ∧
      match_substrings w (some []) = true ∧
      matching_word_count (some []) P (some []) ws = some ws.length := by
  have h1 : match_letters w (some []) P = some true := by
    cases P <;> rfl
  refine ⟨h1, rfl, ?_⟩
  have h : valid_words (some []) P (some []) ws = some ws := by
    induction ws with
    | nil => rfl
    | cons a t ih =>
      have ha : match_letters a (some []) P = some true := by cases P <;> rfl
      simp [valid_words, word_matches, ha, match_substrings, ih]
  simp [matching_word_count, h]

lemma checkLettersPositions_error (L : List String) (P : List Int)
    (h : L.length ≠ P.length ∨ ¬ P.Nodup ∨ ∃ p ∈ P, p < 0 ∨ 4 < p) :
    ∃ e, checkLettersPositions (some L) (some P) = Except.error e := by
  unfold checkLettersPositions
  by_cases h1 : L.length = P.length
  · by_cases h2 : P.dedup.length = P.length
    · have hnd : P.Nodup := by
        have hdd : P.dedup = P := (List.dedup_sublist P).eq_of_length h2
        rw [← hdd]
        exact List.nodup_dedup P
      have h3 : ∃ p ∈ P, p < 0 ∨ 4 < p := by
        rcases h with h | h | h
        · exact absurd h1 h
        · exact absurd hnd h
        · exact h
      have hany : P.any (fun p => decide (p < 0 ∨ 4 < p)) = true :=
        List.any_eq_true.mpr (by simpa using h3)
      simp [h1, h2, hany, h3]
    · simp [h1, h2]
  · simp [h1]

/-- C3 counterexample: the claim says any letters token whose length is not
exactly one character is rejected, including the empty token; but the code
only checks `len(l) > 1`, so the empty token passes validation. -/
theorem validate_accepts_empty_letter_token :
    validate (some [""]) none none = Except.ok () ∧ ("" : String).length ≠ 1 :=
  ⟨rfl, by decide⟩

/-- C3 (amended): any letters list containing a token of length greater
than one character is rejected with the single-character `ValueError`;
a token of length zero is not rejected. -/
theorem validate_rejects_long_letter_token (L : List String)
    (P : Option (List Int)) (S : Option (List String))
    (h : ∃ l ∈ L, 1 < l.length) :
    validate (some L) P S =
      Except.error "Each letter must be a single character. Letters must be separated by spaces" := by
  have hany : L.any (fun l => l.length > 1) = true :=
    List.any_eq_true.mpr (by simpa using h)
  rw [validate_eq]
  simp [checkLetters, hany]

/-- Witness for C3's amended theorem at `letters=["ab"]`. -/
theorem validate_rejects_long_letter_token_witness :
    validate (some ["ab"]) none none =
      Except.error "Each letter must be a single character. Letters must be separated by spaces" :=
  validate_rejects_long_letter_token ["ab"] none none ⟨"ab", by simp, by decide⟩

/-- C7: with both letters and positions supplied, the validator fails when
the lengths differ, when a position repeats, or when a position lies
outside [0,4]; and positions without letters always fail. -/
theorem validate_position_rules (L : List String) (P : List Int) (S : Option (List String)) :
    ((L.length ≠ P.length ∨ ¬ P.Nodup ∨ ∃ p ∈ P, p < 0 ∨ 4 < p) →
      ∃ e, validate (some L) (some P) S = Except.error e) ∧
    validate none (some P) S =
      Except.error "A list of letters is required when using the --positions argument" := by
  constructor
  · intro h
    rw [validate_eq]
    cases hL : checkLetters (some L) with
    | error e => exact ⟨e, rfl⟩
    | ok u =>
      obtain ⟨e, he⟩ := checkLettersPositions_error L P h
      rw [he]
      exact ⟨e, rfl⟩
  · rw [validate_eq]
    rfl

/-- Witness for C7 at `letters=["a","b"], positions=[0]` (length mismatch)
and `positions=[0]` without letters. -/
theorem validate_position_rules_witness :
    (∃ e, validate (some ["a", "b"]) (some [0]) none = Except.error e) ∧
    validate none (some [0]) none =
      Except.error "A list of letters is required when using the --positions argument" :=
  ⟨(validate_position_rules ["a", "b"] [0] none).1 (Or.inl (by decide)),
   (validate_position_rules ["a", "b"] [0] none).2⟩

lemma pyIndexStr_isSome (w : String) (p : Int) (h0 : 0 ≤ p) (hlt : p < (w.length : Int)) :
    (pyIndexStr w p).isSome := by
  unfold pyIndexStr
  simp only [h0, hlt, and_self, if_true]
  have hn : p.toNat < w.data.length := by
    have : w.length = w.data.length := rfl
    omega
  rw [List.get?_eq_get hn]
  rfl

lemma match_pairs_total_spec (w : String) (pairs : List (String × Int))
    (h : ∀ pr ∈ pairs, (pyIndexStr w pr.2).isSome) :
    (match_pairs w pairs).isSome ∧
      (match_pairs w pairs = some true ↔ ∀ pr ∈ pairs, pyIndexStr w pr.2 = some pr.1) := by
  induction pairs with
  | nil => exact ⟨rfl, by simp [match_pairs]⟩
  | cons hd tl ih =>
    obtain ⟨l, p⟩ := hd
    obtain ⟨c, hc⟩ := Option.isSome_iff_exists.mp (h (l, p) (List.mem_cons_self _ _))
    have ih' := ih (fun pr hpr => h pr (List.mem_cons_of_mem _ hpr))
    by_cases hcl : c = l
    · subst hcl
      refine ⟨?_, ?_⟩
      · simpa [match_pairs, hc] using ih'.1
      · rw [List.forall_mem_cons]
        have hred : match_pairs w ((c, p) :: tl) = match_pairs w tl := by
          simp [match_pairs, hc]
        rw [hred, ih'.2]
        simp [hc]
    · refine ⟨by simp [match_pairs, hc, hcl], ?_⟩
      simp only [match_pairs, hc, if_neg hcl]
      rw [List.forall_mem_cons]
      constructor
      · intro hfalse
        exact absurd hfalse (by simp)
      · rintro ⟨h1, -⟩
        rw [hc] at h1
        exact absurd (Option.some_inj.mp h1) hcl

lemma forall_zip_iff_forall_index (L : List String) (P : List Int)
    (f : String → Int → Prop) (hlen : L.length = P.length) :
    (∀ pr ∈ L.zip P, f pr.1 pr.2) ↔
      ∀ i, i < L.length → f (L.getD i "") (P.getD i 0) := by
  induction L generalizing P with
  | nil => simp
  | cons a L ih =>
    cases P with
    | nil => simp at hlen
    | cons b P =>
      have hlen' : L.length = P.length := by simpa using hlen
      rw [List.zip_cons_cons, List.forall_mem_cons, ih P hlen']
      constructor
      · rintro ⟨h0, hrest⟩ i hi
        cases i with
        | zero => simpa using h0
        | succ j =>
          simpa using hrest j (by simpa using hi)
      · intro hall
        refine ⟨by simpa using hall 0 (by simp), fun j hj => ?_⟩
        simpa using hall (j + 1) (by simpa using hj)

/-- C2: for a 5-character word and equal-length letters/positions lists
with every position in [0,4], `match_letters` does not raise, and returns
true iff the word's character at position `P[i]` equals `L[i]` for every
index `i` (exact, case-sensitive positional match). -/
theorem match_letters_positions_spec (w : String) (L : List String) (P : List Int)
    (hlen : L.length = P.length) (hP : ∀ p ∈ P, 0 ≤ p ∧ p ≤ 4) (hw : w.length = 5) :
    (match_letters w (some L) (some P)).isSome ∧
      (match_letters w (some L) (some P) = some true ↔
        ∀ i, i < L.length → pyIndexStr w (P.getD i 0) = some (L.getD i "")) := by
  have hpairs : ∀ pr ∈ L.zip P, (pyIndexStr w pr.2).isSome := by
    intro pr hpr
    have hmem := (List.of_mem_zip hpr).2
    obtain ⟨h0, h4⟩ := hP pr.2 hmem
    exact pyIndexStr_isSome w pr.2 h0 (by omega)
  have hspec := match_pairs_total_spec w (L.zip P) hpairs
  have hml : match_letters w (some L) (some P) = match_pairs w (L.zip P) := rfl
  rw [hml]
  refine ⟨hspec.1, ?_⟩
  rw [hspec.2]
  exact forall_zip_iff_forall_index L P (fun l p => pyIndexStr w p = some l) hlen

/-- Witness for C2 at `w="crane", letters=["c","a"], positions=[0,2]`. -/
theorem match_letters_positions_spec_witness :
    (match_letters "crane" (some ["c", "a"]) (some [0, 2])).isSome ∧
      (match_letters "crane" (some ["c", "a"]) (some [0, 2]) = some true ↔
        ∀ i, i < (["c", "a"] : List String).length →
          pyIndexStr "crane" ([0, 2].getD i 0) = some (["c", "a"].getD i "")) :=
  match_letters_positions_spec "crane" ["c", "a"] [0, 2] (by decide) (by decide) (by decide)

/-- C4: with a non-empty letters list of single-character tokens and no
positions, `match_letters` returns true iff every required character
occurs somewhere in the word, regardless of multiplicity. -/
theorem match_letters_containment_spec (w : String) (L : List String)
    (_hne : L ≠ []) (h1 : ∀ l ∈ L, l.length = 1) :
    match_letters w (some L) none = some true ↔
      ∀ l ∈ L, ∀ c ∈ l.data, c ∈ w.data := by
  have hred : match_letters w (some L) none = some (L.all (fun l => pyIn l w)) := rfl
  rw [hred, Option.some_inj, List.all_eq_true]
  constructor
  · intro h l hl c hc
    have hp : l.data <:+: w.data := of_decide_eq_true (by simpa [pyIn] using h l hl)
    exact hp.mem hc
  · intro h l hl
    obtain ⟨c, hc⟩ := List.length_eq_one.mp (h1 l hl)
    have hcw : c ∈ w.data := h l hl c (by simp [hc])
    show pyIn l w = true
    unfold pyIn
    rw [hc]
    exact decide_eq_true ((singleton_infix_iff c w.data).mpr hcw)

/-- Witness for C4 at `w="crane", letters=["a"]`. -/
theorem match_letters_containment_spec_witness :
    match_letters "crane" (some ["a"]) none = some true ↔
      ∀ l ∈ (["a"] : List String), ∀ c ∈ l.data, c ∈ ("crane" : String).data :=
  match_letters_containment_spec "crane" ["a"] (by decide) (by decide)

/-- C8: the match count is invariant under permutation of the word list,
and (when no word raises) a word is kept exactly when both the letter
predicate and the substring predicate hold for it. -/
theorem count_perm_invariant (letters : Option (List String)) (positions : Option (List Int))
    (substrings : Option (List String)) (ws1 ws2 : List String) (hperm : ws1.Perm ws2) :
    matching_word_count letters positions substrings ws1 =
      matching_word_count letters positions substrings ws2 ∧
    (∀ vs, valid_words letters positions substrings ws1 = some vs →
      ∀ w, w ∈ vs ↔ w ∈ ws1 ∧ match_letters w letters positions = some true ∧
        match_substrings w substrings = true) := by
  by_cases hex : ∃ w ∈ ws1, word_matches letters positions substrings w = none
  · obtain ⟨w, hw1, hwn⟩ := hex
    have hv1 := valid_words_of_none letters positions substrings ws1 w hw1 hwn
    have hv2 := valid_words_of_none letters positions substrings ws2 w (hperm.mem_iff.mp hw1) hwn
    constructor
    · simp [matching_word_count, hv1, hv2]
    · intro vs hvs
      rw [hv1] at hvs
      cases hvs
  · push_neg at hex
    have hsome1 : ∀ w ∈ ws1, (word_matches letters positions substrings w).isSome :=
      fun w hw => Option.ne_none_iff_isSome.mp (hex w hw)
    have hsome2 : ∀ w ∈ ws2, (word_matches letters positions substrings w).isSome :=
      fun w hw => hsome1 w (hperm.mem_iff.mpr hw)
    have hv1 := valid_words_all_some letters positions substrings ws1 hsome1
    have hv2 := valid_words_all_some letters positions substrings ws2 hsome2
    constructor
    · have hpf := hperm.filter (fun w => word_matches letters positions substrings w == some true)
      simp [matching_word_count, hv1, hv2, hpf.length_eq]
    · intro vs hvs w
      rw [hv1] at hvs
      obtain rfl := Option.some_inj.mp hvs.symm
      rw [List.mem_filter, beq_iff_eq, word_matches_eq_some_true_iff]

/-- Witness for C8: the two orderings of a concrete word list give the
same count. -/
theorem count_perm_invariant_witness :
    matching_word_count none none (some ["ra"]) ["crane", "slate", "crate"] =
      matching_word_count none none (some ["ra"]) ["crate", "crane", "slate"] :=
  (count_perm_invariant none none (some ["ra"])
    ["crane", "slate", "crate"] ["crate", "crane", "slate"] (by decide)).1

lemma pyIndexStr_ge_none (w : String) (p : Int) (hp : (w.length : Int) ≤ p) :
    pyIndexStr w p = none := by
  unfold pyIndexStr
  have h1 : ¬(0 ≤ p ∧ p < (w.length : Int)) := by omega
  have h2 : ¬(-(w.length : Int) ≤ p ∧ p < 0) := by omega
  simp [h1, h2]

lemma match_pairs_append_none (w : String) (pre : List (String × Int)) (l : String)
    (p : Int) (post : List (String × Int))
    (hpre : ∀ pr ∈ pre, pyIndexStr w pr.2 = some pr.1)
    (hp : (w.length : Int) ≤ p) :
    match_pairs w (pre ++ (l, p) :: post) = none := by
  induction pre with
  | nil =>
    simp only [List.nil_append, match_pairs, pyIndexStr_ge_none w p hp]
  | cons hd tl ih =>
    obtain ⟨l', p'⟩ := hd
    have hhd : pyIndexStr w p' = some l' := hpre (l', p') (List.mem_cons_self _ _)
    have htl := ih (fun pr hpr => hpre pr (List.mem_cons_of_mem _ hpr))
    simpa [match_pairs, hhd] using htl

/-- C9 counterexample: the claim asserts that `match_letters` raises
`IndexError` whenever some (letter, position) pair has a position at or
beyond the word's length.  Because Python's `all` short-circuits, a pair
that mismatches earlier makes the call return false without ever
evaluating the out-of-range index: at `w="crane", letters=["x","a"],
positions=[0,9]` the pair `("a", 9)` has `9 ≥ 5` yet the call returns
`some false`, not a raise. -/
theorem match_letters_no_raise_after_mismatch :
    match_letters "crane" (some ["x", "a"]) (some [0, 9]) = some false ∧
      (("crane" : String).length : Int) ≤ 9 :=
  ⟨rfl, by decide⟩

/-- C9 (amended): `match_letters` with positions is not total — if,
scanning the zipped (letter, position) pairs in order, every pair before
some pair `(l, p)` matches and `p ≥ len(w)`, the call raises `IndexError`
(`none`) instead of returning false; consequently `main`'s count raises on
any word list containing such a word (e.g. the empty string produced by a
trailing newline, which makes any non-empty positions constraint raise). -/
theorem match_letters_positions_raises (w : String) (L : List String) (P : List Int)
    (pre : List (String × Int)) (l : String) (p : Int) (post : List (String × Int))
    (hzip : L.zip P = pre ++ (l, p) :: post)
    (hpre : ∀ pr ∈ pre, pyIndexStr w pr.2 = some pr.1)
    (hp : (w.length : Int) ≤ p) :
    match_letters w (some L) (some P) = none ∧
      ∀ (ws : List String) (S : Option (List String)), w ∈ ws →
        matching_word_count (some L) (some P) S ws = none := by
  have hml : match_letters w (some L) (some P) = none := by
    have : match_letters w (some L) (some P) = match_pairs w (L.zip P) := rfl
    rw [this, hzip]
    exact match_pairs_append_none w pre l p post hpre hp
  refine ⟨hml, fun ws S hw => ?_⟩
  have hwm : word_matches (some L) (some P) S w = none :=
    (word_matches_none_iff (some L) (some P) S w).mpr hml
  have hv := valid_words_of_none (some L) (some P) S ws w hw hwm
  simp [matching_word_count, hv]

/-- Witness for C9's amended theorem: the empty word (a trailing empty
entry of the fetched list) makes `match_letters` raise under the
constraint `letters=["a"], positions=[0]`, and the count of a list
containing it raises too. -/
theorem match_letters_positions_raises_witness :
    match_letters "" (some ["a"]) (some [0]) = none ∧
      matching_word_count (some ["a"]) (some [0]) none ["crane", ""] = none := by
  have h := match_letters_positions_raises "" ["a"] [0] [] "a" 0 [] rfl
    (by simp) (by decide)
  exact ⟨h.1, h.2 ["crane", ""] none (by simp)⟩
